import Mathlib

/-!
Verification of the record-store component shared by the LLView scrapers
(`da/rms/Prometheus/prometheus.py`, `da/rms/files/files.py`,
`da/rms/gitlab/gitlab.py`).

Python dictionaries are modelled as insertion-ordered association lists:
`dictGet` returns the first binding of a key, `dictSet` overwrites an
existing binding in place (keeping its position) or appends a new one at
the end, exactly like `d[k] = v` on a `dict`.  Python values that can
appear in a record tree are modelled by `PyVal` (None, strings, integers
and nested dicts); scalar-only records are modelled as `List (String ×
String)` where the code only ever stores parsed strings.
-/

/-- Model of a Python value stored in a record tree: `None`, a string,
an integer, or a nested dictionary (insertion-ordered association list). -/
inductive PyVal where
  | vNone : PyVal
  | vStr : String → PyVal
  | vInt : Int → PyVal
  | vDict : List (String × PyVal) → PyVal

/-- A Python dict of `PyVal`s, as an insertion-ordered association list. -/
abbrev PyDict := List (String × PyVal)

/-- A scalar record of the parsing pipelines: a Python dict whose values
are the parsed strings (field name → string value). -/
abbrev Rec := List (String × String)

/-- `dictGet d k` models `d.get(k)`: the first binding of `k`, if any. -/
def dictGet {α : Type} (d : List (String × α)) (k : String) : Option α :=
  match d with
  | [] => none
  | (k', v) :: rest => if k' = k then some v else dictGet rest k

/-- `dictSet d k v` models `d[k] = v`: overwrite the binding of `k`
in place if present (keeping its position), else append at the end. -/
def dictSet {α : Type} : List (String × α) → String → α → List (String × α)
  | [], k, v => [(k, v)]
  | (k', w) :: rest, k, v =>
    if k' = k then (k, v) :: rest else (k', w) :: dictSet rest k v

/-- `dictDel d k` models `del d[k]`: remove the binding of `k`.  The
accompanying `KeyError` when `k` is absent is modelled at the call
sites (`dictGet d k` is checked first). -/
def dictDel {α : Type} : List (String × α) → String → List (String × α)
  | [], _ => []
  | (k', v) :: rest, k => if k' = k then rest else (k', v) :: dictDel rest k

/-- Model of `str.startswith(pre)`; `String.startsWith` itself is
defined by well-founded recursion on byte positions and does not reduce,
so the byte-equivalent list form is used. -/
def strStarts (s pre : String) : Bool := pre.data.isPrefixOf s.data

/-- Is this value a Python mapping (`isinstance(v, dict)`)? -/
def PyVal.isDict : PyVal → Bool
  | .vDict _ => true
  | _ => false

/-- The keys of a dict, in order (with multiplicity). -/
def dictKeys {α : Type} (d : List (String × α)) : List String := d.map Prod.fst

mutual

/-- Modelled from the spec: the clean recursive deep merge that C1
asserts ("for each key present in both, if both values at a given path
are mappings, merge recursively; otherwise the incoming value replaces
the existing one") — the reference semantics the code's `Info.add` is
compared against. -/
def specMerge : PyDict → PyDict → PyDict
  | add_to, [] => add_to
  | add_to, (bk, bv) :: rest =>
    specMerge (dictSet add_to bk (specMergeOpt (dictGet add_to bk) bv)) rest
termination_by _ l => sizeOf l

/-- The value the spec's merge stores at a key present on both sides:
the recursive merge when both values are mappings, the incoming value
otherwise. -/
def specMergeVal : PyVal → PyVal → PyVal
  | .vDict a, .vDict b => .vDict (specMerge a b)
  | _, bv => bv
termination_by _ b => sizeOf b

/-- `specMergeVal` lifted to the result of `add_to.get(bk)`: a missing
key (`None`) is never a mapping, so the incoming value is stored. -/
def specMergeOpt : Option PyVal → PyVal → PyVal
  | some av, bv => specMergeVal av bv
  | none, bv => bv
termination_by _ b => sizeOf b + 1
decreasing_by all_goals simp_wf

end

/-- The sub-dictionary of `root` reached by following `path` through
dict-valued bindings; `none` when the path no longer leads to a dict
(an object the code would hold has been detached from the tree). -/
def getPath : PyDict → List String → Option PyDict
  | d, [] => some d
  | d, p :: ps =>
    match dictGet d p with
    | some (.vDict sub) => getPath sub ps
    | _ => none

/-- `d[path][k] = v`: functional update of the dict at `path`.  When
the path no longer leads to a dict, the Python assignment mutates a
detached object, which is unobservable in the tree: `root` is
unchanged. -/
def setPath : PyDict → List String → String → PyVal → PyDict
  | d, [], k, v => dictSet d k v
  | d, p :: ps, k, v =>
    match dictGet d p with
    | some (.vDict sub) => dictSet d p (.vDict (setPath sub ps k v))
    | _ => d

/-- Replace the whole dict at `path` (same detachment convention as
`setPath`). -/
def putPath : PyDict → List String → PyDict → PyDict
  | _, [], new => new
  | d, p :: ps, new =>
    match dictGet d p with
    | some (.vDict sub) => dictSet d p (.vDict (putPath sub ps new))
    | _ => d

namespace Info

/-- The scalar-assignment case of `Info.add`:
`add_to[bk] = deepcopy(bv)` on the dict at `path` (a write to a
detached object leaves the tree unchanged). -/
def setIfLive (root : PyDict) (path : List String) (bk : String)
    (bv : PyVal) : PyDict :=
  match getPath root path with
  | some _ => setPath root path bk bv
  | none => root

mutual

/-- Embedding of `Info.add` (prometheus.py lines 188-201), which
mutates `self`: the state is the root dict `self._dict` and the
current target `add_to` is the dict at `path` (`path = []` for the
top-level call `self.add(to_add)`, whose `add_to=None` is falsy and
redirected to `self._dict`).  Each binding of `to_add` is processed by
`addStep` and the updated root threads through.  The store tree is
assumed alias-free (records are parsed fresh and incoming values are
`deepcopy`ed). -/
def add (root : PyDict) (path : List String) : PyDict → PyDict
  | [] => root
  | (bk, bv) :: rest => add (addStep root path bk bv) path rest
termination_by l => sizeOf l

/-- One binding `(bk, bv)` of `Info.add`'s loop, on the dict `add_to`
at `path` of `root`: with `av = add_to.get(bk)`, when both `av` and
`bv` are dicts the code calls `self.add(bv, add_to=av)` — and `if not
add_to:` then redirects a *falsy* (empty) `av` to `self._dict`, so the
recursion descends into `path ++ [bk]` only when `av` is non-empty and
merges into the top level (path `[]`) when `av == {}`; in every other
case `add_to[bk] = deepcopy(bv)`. -/
def addStep (root : PyDict) (path : List String) (bk : String) :
    PyVal → PyDict
  | .vDict b =>
    match getPath root path with
    | some cur =>
      match dictGet cur bk with
      | some (.vDict a) =>
        if a.isEmpty then add root [] b
        else add root (path ++ [bk]) b
      | _ => setIfLive root path bk (.vDict b)
    | none => root
  | .vNone => setIfLive root path bk .vNone
  | .vStr s => setIfLive root path bk (.vStr s)
  | .vInt n => setIfLive root path bk (.vInt n)
termination_by v => sizeOf v

end

/-- A store of the prometheus/gitlab scrapers: the raw dict (`_raw`)
and the rendered dict (`_dict`). -/
structure Store where
  raw : PyDict
  dict : PyDict

/-- Embedding of `dict.__ior__` (`first._raw |= second._raw`): every
binding of `b` overwrites wholesale (no recursion). -/
def rawUnion (a b : PyDict) : PyDict :=
  b.foldl (fun acc p => dictSet acc p.1 p.2) a

/-- Embedding of `Info.__add__` (prometheus.py lines 169-174):
`first._raw |= second._raw` and `first.add(second._dict)` (top-level
call, `add_to = self._dict`). -/
def hAdd (first second : Store) : Store :=
  { raw := rawUnion first.raw second.raw
    dict := add first.dict [] second.dict }

end Info

section DictLemmas

theorem dictGet_dictSet_self {α : Type} (d : List (String × α)) (k : String) (v : α) :
    dictGet (dictSet d k v) k = some v := by
  induction d with
  | nil => simp [dictSet, dictGet]
  | cons p rest ih =>
    obtain ⟨k', w⟩ := p
    by_cases h : k' = k
    · simp [dictSet, h, dictGet]
    · simp [dictSet, h, dictGet, ih]

theorem dictGet_dictSet_ne {α : Type} (d : List (String × α)) (k k' : String) (v : α)
    (h : k ≠ k') : dictGet (dictSet d k v) k' = dictGet d k' := by
  induction d with
  | nil => simp [dictSet, dictGet, h]
  | cons p rest ih =>
    obtain ⟨k₀, w⟩ := p
    by_cases h0 : k₀ = k
    · subst h0
      simp [dictSet, dictGet, h]
    · simp [dictSet, h0, dictGet, ih]

theorem dictGet_eq_none_iff {α : Type} (d : List (String × α)) (k : String) :
    dictGet d k = none ↔ k ∉ dictKeys d := by
  induction d with
  | nil => simp [dictGet, dictKeys]
  | cons p rest ih =>
    obtain ⟨k', v⟩ := p
    by_cases h : k' = k
    · simp [dictGet, h, dictKeys]
    · simp [dictGet, h, dictKeys, ih, Ne.symm h]

end DictLemmas

section SpecMergeLemmas

theorem specMerge_get_of_not_mem (B : PyDict) (A : PyDict) (k : String)
    (h : k ∉ dictKeys B) : dictGet (specMerge A B) k = dictGet A k := by
  induction B generalizing A with
  | nil => simp [specMerge]
  | cons p rest ih =>
    obtain ⟨bk, bv⟩ := p
    have hne : bk ≠ k := by
      intro hc; exact h (by simp [dictKeys, hc])
    have hrest : k ∉ dictKeys rest := by
      intro hc; exact h (by simp [dictKeys] at hc ⊢; exact Or.inr hc)
    rw [specMerge, ih _ hrest, dictGet_dictSet_ne _ _ _ _ hne]

theorem specMerge_get_right (B : PyDict) (A : PyDict) (k : String) (bv : PyVal)
    (hnd : (dictKeys B).Nodup) (hA : dictGet A k = none)
    (hB : dictGet B k = some bv) : dictGet (specMerge A B) k = some bv := by
  induction B generalizing A with
  | nil => simp [dictGet] at hB
  | cons p rest ih =>
    obtain ⟨bk, bv'⟩ := p
    simp only [dictKeys, List.map_cons, List.nodup_cons] at hnd
    by_cases h : bk = k
    · subst h
      simp [dictGet] at hB
      subst hB
      rw [specMerge]
      rw [specMerge_get_of_not_mem _ _ _ hnd.1]
      rw [hA]
      simp only [specMergeOpt]
      exact dictGet_dictSet_self _ _ _
    · simp only [dictGet, if_neg h] at hB
      rw [specMerge]
      exact ih _ hnd.2 (by rw [dictGet_dictSet_ne _ _ _ _ h]; exact hA) hB

theorem specMerge_get_both (B : PyDict) (A : PyDict) (k : String) (av bv : PyVal)
    (hnd : (dictKeys B).Nodup) (hA : dictGet A k = some av)
    (hB : dictGet B k = some bv) :
    dictGet (specMerge A B) k = some (specMergeVal av bv) := by
  induction B generalizing A with
  | nil => simp [dictGet] at hB
  | cons p rest ih =>
    obtain ⟨bk, bv'⟩ := p
    simp only [dictKeys, List.map_cons, List.nodup_cons] at hnd
    by_cases h : bk = k
    · subst h
      simp [dictGet] at hB
      subst hB
      rw [specMerge]
      rw [specMerge_get_of_not_mem _ _ _ hnd.1]
      rw [hA]
      simp only [specMergeOpt]
      exact dictGet_dictSet_self _ _ _
    · simp only [dictGet, if_neg h] at hB
      rw [specMerge]
      exact ih _ hnd.2 (by rw [dictGet_dictSet_ne _ _ _ _ h]; exact hA) hB

end SpecMergeLemmas

namespace Info

/-- Embedding of the per-field `<data .../>` emission test of
`Info.to_LML` (prometheus.py lines 712-721; identical in gitlab.py
lines 1473-1482): `__nelems*` keys are always written, other `__` keys
are skipped, any other field is written when
`(not isinstance(value, str)) or (value != "")`. -/
def toLML_emits (key : String) (value : PyVal) : Bool :=
  if strStarts key "__nelems" then true
  else if strStarts key "__" then false
  else
    match value with
    | .vStr s => decide (s ≠ "")
    | _ => true

/-- The `<data .../>` payload of one `<info>` block of `Info.to_LML`:
the record's fields, in order, that pass `toLML_emits`. -/
def toLML_data (item : PyDict) : List (String × PyVal) :=
  item.filter (fun kv => toLML_emits kv.1 kv.2)

/-- Embedding of `Info.add_value` (prometheus.py lines 500-506;
identical in gitlab.py lines 1203-1209):
`dict[key] = value if value != "(null)" else ""`. -/
def add_value (key value : String) (d : Rec) : Rec :=
  dictSet d key (if value = "(null)" then "" else value)

end Info

namespace OutputAggregator

/-- Embedding of the per-field `<data .../>` emission test of
`OutputAggregator._perform_lml_write` (files.py lines 737-743):
`__nelems*` keys are always written, other `__` keys are skipped, any
other field is written when `data_value is not None`. -/
def lml_emits (key : String) (value : PyVal) : Bool :=
  if strStarts key "__nelems" then true
  else if strStarts key "__" then false
  else
    match value with
    | .vNone => false
    | _ => true

end OutputAggregator

/-- Modelled from the spec: the emission rule C2 asserts, for
comparison with the code's rules — a non-`__` field is emitted iff its
value is neither the empty string nor `None`. -/
def spec_emits (key : String) (value : PyVal) : Bool :=
  if strStarts key "__" then false
  else
    match value with
    | .vNone => false
    | .vStr "" => false
    | _ => true

/-- C2 fails as stated: the prometheus/gitlab renderer emits a `<data>`
element for a `None` value (it only suppresses empty *strings*), and
the files renderer emits a `<data>` element for an empty string (it
only suppresses `None`) — both contradicting the claimed rule that a
field is emitted iff its value is neither `""` nor `None`. -/
theorem C2_emission_counterexample :
    Info.toLML_emits "y" PyVal.vNone = true
    ∧ spec_emits "y" PyVal.vNone = false
    ∧ OutputAggregator.lml_emits "y" (PyVal.vStr "") = true
    ∧ spec_emits "y" (PyVal.vStr "") = false := by
  refine ⟨rfl, rfl, rfl, rfl⟩

/-- C2 (amended): for a non-`__` field, `Info.to_LML` emits the
`<data>` element iff the value is not the empty string — `None` and
other non-string values are always emitted — while
`OutputAggregator._perform_lml_write` emits it iff the value is not
`None` — empty strings are emitted.  The record `{"x": "5", "y": ""}`
rendered by `Info.to_LML` yields a data element for `x` and none for
`y`, as the spec's round-trip scenario says. -/
theorem C2_emission_rules :
    (∀ k v, strStarts k "__" = false →
      (Info.toLML_emits k v = true ↔ v ≠ PyVal.vStr ""))
    ∧ (∀ k v, strStarts k "__" = false →
      (OutputAggregator.lml_emits k v = true ↔ v ≠ PyVal.vNone))
    ∧ Info.toLML_data [("x", PyVal.vStr "5"), ("y", PyVal.vStr "")]
        = [("x", PyVal.vStr "5")] := by
  have hnel : ∀ k : String, strStarts k "__" = false →
      strStarts k "__nelems" = false := by
    intro k h
    by_contra hc
    rw [Bool.not_eq_false] at hc
    have hp : "__nelems".data <+: k.data := by
      simpa [strStarts, List.isPrefixOf_iff_prefix] using hc
    have hp2 : "__".data <+: k.data := List.IsPrefix.trans (by decide) hp
    have h2 : strStarts k "__" = true := by
      simpa [strStarts, List.isPrefixOf_iff_prefix] using hp2
    rw [h] at h2
    exact Bool.false_ne_true h2
  refine ⟨?_, ?_, rfl⟩
  · intro k v h
    unfold Info.toLML_emits
    rw [hnel k h, h]
    simp only [Bool.false_eq_true, if_false]
    cases v with
    | vStr s =>
      constructor
      · intro hs hc
        injection hc with hc'
        simp [hc'] at hs
      · intro hs
        simp only [decide_eq_true_eq]
        intro hc
        exact hs (by rw [hc])
    | vNone => simp
    | vInt n => simp
    | vDict d => simp
  · intro k v h
    unfold OutputAggregator.lml_emits
    rw [hnel k h, h]
    simp only [Bool.false_eq_true, if_false]
    cases v <;> simp

/-- Witness for C2 (amended) at a concrete key/value: a `None`-valued
ordinary field is emitted by the prometheus renderer. -/
theorem C2_emission_rules_witness :
    Info.toLML_emits "load" PyVal.vNone = true :=
  (C2_emission_rules.1 "load" PyVal.vNone rfl).mpr (by simp)

/-- C10: `add_value` stores `""` in place of the literal string
`"(null)"`, stores every other value unchanged, and (because
`Info.to_LML` suppresses empty-string values of ordinary fields) a
field parsed as `"(null)"` produces no `<data>` element. -/
theorem C10_null_replacement (d : Rec) (k v : String)
    (hk1 : strStarts k "__nelems" = false) (hk2 : strStarts k "__" = false) :
    dictGet (Info.add_value k "(null)" d) k = some ""
    ∧ (v ≠ "(null)" → dictGet (Info.add_value k v d) k = some v)
    ∧ Info.toLML_emits k (PyVal.vStr "") = false := by
  refine ⟨?_, ?_, ?_⟩
  · unfold Info.add_value
    rw [if_pos rfl]
    exact dictGet_dictSet_self d k ""
  · intro hv
    unfold Info.add_value
    rw [if_neg hv]
    exact dictGet_dictSet_self d k v
  · unfold Info.toLML_emits
    rw [hk1, hk2]
    simp

/-- Witness for C10 at a concrete record and field. -/
theorem C10_null_replacement_witness :
    dictGet (Info.add_value "Reason" "(null)" [("JobId", "17")]) "Reason"
      = some "" :=
  (C10_null_replacement [("JobId", "17")] "Reason" "x" rfl rfl).1

/-!
A small regular-expression engine (Brzozowski derivatives) modelling
the fragment of Python `re` that the scrapers' patterns use: literal
characters, `.` and `*` (with `|` as the closure needed to take
derivatives of sequences).  `re.match(p, s)` is truthy iff `p` matches
some *prefix* of `s` (anchored at the start); `re.search(p, s)` is
truthy iff `p` matches some substring of `s`.
-/

/-- Regular expressions: empty language, empty string, a literal
character, `.` (any character), sequence, alternation and `*`. -/
inductive Regex where
  | fail : Regex
  | eps : Regex
  | char : Char → Regex
  | anyc : Regex
  | seq : Regex → Regex → Regex
  | alt : Regex → Regex → Regex
  | star : Regex → Regex

/-- Does the regex accept the empty string? -/
def Regex.nullable : Regex → Bool
  | .fail => false
  | .eps => true
  | .char _ => false
  | .anyc => false
  | .seq a b => a.nullable && b.nullable
  | .alt a b => a.nullable || b.nullable
  | .star _ => true

/-- Brzozowski derivative of a regex by one character. -/
def Regex.deriv : Regex → Char → Regex
  | .fail, _ => .fail
  | .eps, _ => .fail
  | .char c', c => if c' = c then .eps else .fail
  | .anyc, _ => .eps
  | .seq a b, c =>
    if a.nullable then .alt (.seq (a.deriv c) b) (b.deriv c)
    else .seq (a.deriv c) b
  | .alt a b, c => .alt (a.deriv c) (b.deriv c)
  | .star a, c => .seq (a.deriv c) (.star a)

/-- Does the regex match the whole character list? -/
def Regex.fullmatch (r : Regex) (s : List Char) : Bool :=
  (s.foldl Regex.deriv r).nullable

/-- Does the regex match some prefix of the character list?  This is
the truthiness of Python's `re.match(r, s)`. -/
def Regex.matchPrefix : Regex → List Char → Bool
  | r, [] => r.nullable
  | r, c :: cs => r.nullable || (r.deriv c).matchPrefix cs

/-- Truthiness of `re.match(r, s)`: anchored at the start of `s`. -/
def reMatch (r : Regex) (s : String) : Bool :=
  r.matchPrefix s.data

/-- Truthiness of `re.search(r, s)`: leftmost unanchored search, i.e.
a match starting at any position of `s`. -/
def reSearchAux (r : Regex) : List Char → Bool
  | [] => r.matchPrefix []
  | c :: cs => r.matchPrefix (c :: cs) || reSearchAux r cs

/-- Truthiness of `re.search(r, s)`. -/
def reSearch (r : Regex) (s : String) : Bool :=
  reSearchAux r s.data

/-- The regex for a literal string (no metacharacters). -/
def Regex.lit (s : String) : Regex :=
  s.data.foldr (fun c r => .seq (.char c) r) .eps

/-- The regex `p.*` for a literal string `p`. -/
def Regex.litDotStar (s : String) : Regex :=
  .seq (.lit s) (.star .anyc)

theorem matchPrefix_iff (s : List Char) (r : Regex) :
    r.matchPrefix s = true ↔ ∃ p, p <+: s ∧ r.fullmatch p = true := by
  induction s generalizing r with
  | nil =>
    simp only [Regex.matchPrefix]
    constructor
    · intro h
      exact ⟨[], List.nil_prefix, h⟩
    · rintro ⟨p, hp, hm⟩
      rw [List.prefix_nil] at hp
      subst hp
      exact hm
  | cons c cs ih =>
    simp only [Regex.matchPrefix, Bool.or_eq_true, ih]
    constructor
    · rintro (h | ⟨p, hp, hm⟩)
      · exact ⟨[], List.nil_prefix, h⟩
      · exact ⟨c :: p, by simpa using hp, hm⟩
    · rintro ⟨p, hp, hm⟩
      cases p with
      | nil => exact Or.inl hm
      | cons c' p' =>
        obtain ⟨t, ht⟩ := hp
        injection ht with h1 h2
        subst h1
        refine Or.inr ⟨p', ⟨t, h2⟩, ?_⟩
        simpa [Regex.fullmatch] using hm

theorem reSearchAux_iff_exists_drop (s : List Char) (r : Regex) :
    reSearchAux r s = true ↔ ∃ n, r.matchPrefix (s.drop n) = true := by
  induction s with
  | nil =>
    simp only [reSearchAux]
    exact ⟨fun h => ⟨0, h⟩, fun ⟨n, h⟩ => by simpa using h⟩
  | cons c cs ih =>
    simp only [reSearchAux, Bool.or_eq_true, ih]
    constructor
    · rintro (h | ⟨n, h⟩)
      · exact ⟨0, h⟩
      · exact ⟨n + 1, h⟩
    · rintro ⟨n, h⟩
      cases n with
      | zero => exact Or.inl h
      | succ m => exact Or.inr ⟨m, h⟩

/-!
Include/exclude pattern specifications, as the YAML config delivers
them to `check_unit`: a single pattern string, a list whose items are
pattern strings or field-to-pattern dicts, or a field-to-pattern dict
whose values are single patterns or lists of patterns.
-/

/-- A value of a field-to-pattern dict: one pattern or a list. -/
inductive PatVal where
  | pstr : Regex → PatVal
  | plist : List Regex → PatVal

/-- An item of a pattern list: a pattern string or a field dict. -/
inductive PatItem where
  | istr : Regex → PatItem
  | idict : List (String × PatVal) → PatItem

/-- A full pattern specification. -/
inductive Pattern where
  | pstr : Regex → Pattern
  | plist : List PatItem → Pattern
  | pdict : List (String × PatVal) → Pattern

/-- One field rule of `check_unit`:
`(key in unit) and re_matcher(value, unit[key])`. -/
def check_field (m : Regex → String → Bool) (unit : Rec) (key : String) :
    PatVal → Bool
  | .pstr r =>
    match dictGet unit key with
    | some v => m r v
    | none => false
  | .plist rs =>
    rs.any fun r =>
      match dictGet unit key with
      | some v => m r v
      | none => false

/-- The common body of `Info.check_unit` (prometheus.py lines 581-618)
and `BenchRepo.check_unit` (gitlab.py lines 1342-1379), which differ
only in the matcher applied (`re.match` vs `re.search`): returns `True`
as soon as one rule of the pattern specification fires. -/
def check_unit_with (m : Regex → String → Bool) (unitname : String)
    (unit : Rec) : Pattern → Bool
  | .pstr r => m r unitname
  | .plist pats =>
    pats.any fun pat =>
      match pat with
      | .istr r => m r unitname
      | .idict mp => mp.any fun kv => check_field m unit kv.1 kv.2
  | .pdict mp => mp.any fun kv => check_field m unit kv.1 kv.2

/-- Embedding of `Info.check_unit` (prometheus.py lines 581-618): every
rule is evaluated with `re.match`, anchored at the start. -/
def Info.check_unit (unitname : String) (unit : Rec) (pattern : Pattern) :
    Bool :=
  check_unit_with reMatch unitname unit pattern

/-- Embedding of `BenchRepo.check_unit` (gitlab.py lines 1342-1379):
every rule is evaluated with `re.search`, unanchored. -/
def BenchRepo.check_unit (unitname : String) (unit : Rec)
    (pattern : Pattern) : Bool :=
  check_unit_with reSearch unitname unit pattern

/-- One deletion step `del d[k]` of the removal loop: `KeyError`
(modelled as `Except.error ()`) when the key is absent. -/
def del_step {α : Type} (d : List (String × α)) (k : String) :
    Except Unit (List (String × α)) :=
  if (dictGet d k).isSome then Except.ok (dictDel d k) else Except.error ()

/-- The `to_remove` accumulation step of `Info.apply_pattern`
(prometheus.py lines 571-576): `to_remove` is a *list*, appended to
once for a firing exclude rule and once more for a failing include
rule. -/
def Info.mark_unit (excl incl : Option Pattern) (acc : List String)
    (kv : String × Rec) : List String :=
  let acc1 :=
    match excl with
    | some e => if Info.check_unit kv.1 kv.2 e = true then acc ++ [kv.1] else acc
    | none => acc
  match incl with
  | some i => if Info.check_unit kv.1 kv.2 i = false then acc1 ++ [kv.1] else acc1
  | none => acc1

/-- Embedding of `Info.apply_pattern` (prometheus.py lines 565-579):
collect `to_remove` over all units, then `del self._dict[unitname]`
for each entry in order.  `exclude`/`include` are `""` (falsy) by
default, modelled as `Option`. -/
def Info.apply_pattern (store : List (String × Rec))
    (excl incl : Option Pattern) : Except Unit (List (String × Rec)) :=
  let to_remove := store.foldl (Info.mark_unit excl incl) []
  to_remove.foldlM del_step store

/-- `set.add`: the gitlab `to_remove` is a set, so marking the same
unit twice stores it once (insertion order kept for determinism). -/
def insertOnce (l : List String) (x : String) : List String :=
  if x ∈ l then l else l ++ [x]

/-- The `to_remove` accumulation step of the dict branch of
`BenchRepo.apply_pattern` (gitlab.py lines 1294-1301): same rules as
the prometheus variant, but `to_remove` is a `set`. -/
def BenchRepo.mark_unit (excl incl : Option Pattern) (acc : List String)
    (kv : String × Rec) : List String :=
  let acc1 :=
    match excl with
    | some e =>
      if BenchRepo.check_unit kv.1 kv.2 e = true then insertOnce acc kv.1 else acc
    | none => acc
  match incl with
  | some i =>
    if BenchRepo.check_unit kv.1 kv.2 i = false then insertOnce acc1 kv.1 else acc1
  | none => acc1

/-- Embedding of the dict branch of `BenchRepo.apply_pattern`
(gitlab.py lines 1268, 1294-1304). -/
def BenchRepo.apply_pattern_dict (elements : List (String × Rec))
    (excl incl : Option Pattern) : Except Unit (List (String × Rec)) :=
  let to_remove := elements.foldl (BenchRepo.mark_unit excl incl) []
  to_remove.foldlM del_step elements

section FilterLemmas

theorem mark_unit_eq_append (excl incl : Option Pattern) (acc : List String)
    (kv : String × Rec) :
    ∃ t, Info.mark_unit excl incl acc kv = acc ++ t := by
  unfold Info.mark_unit
  cases excl with
  | none =>
    cases incl with
    | none => exact ⟨[], by simp⟩
    | some i =>
      by_cases h : Info.check_unit kv.1 kv.2 i = false
      · exact ⟨[kv.1], by simp [h]⟩
      · exact ⟨[], by simp [h]⟩
  | some e =>
    cases incl with
    | none =>
      by_cases h : Info.check_unit kv.1 kv.2 e = true
      · exact ⟨[kv.1], by simp [h]⟩
      · exact ⟨[], by simp [h]⟩
    | some i =>
      by_cases h : Info.check_unit kv.1 kv.2 e = true
      · by_cases h2 : Info.check_unit kv.1 kv.2 i = false
        · exact ⟨[kv.1, kv.1], by simp [h, h2]⟩
        · exact ⟨[kv.1], by simp [h, h2]⟩
      · by_cases h2 : Info.check_unit kv.1 kv.2 i = false
        · exact ⟨[kv.1], by simp [h, h2]⟩
        · exact ⟨[], by simp [h, h2]⟩

theorem foldl_mark_eq_append (excl incl : Option Pattern)
    (l : List (String × Rec)) (acc : List String) :
    ∃ t, l.foldl (Info.mark_unit excl incl) acc = acc ++ t := by
  induction l generalizing acc with
  | nil => exact ⟨[], by simp⟩
  | cons kv rest ih =>
    obtain ⟨t1, h1⟩ := mark_unit_eq_append excl incl acc kv
    obtain ⟨t2, h2⟩ := ih (Info.mark_unit excl incl acc kv)
    exact ⟨t1 ++ t2, by rw [List.foldl_cons, h2, h1, List.append_assoc]⟩

theorem mem_foldl_mark_of_excluded (e : Pattern) (incl : Option Pattern)
    (l : List (String × Rec)) (acc : List String) (k : String) (u : Rec)
    (hmem : (k, u) ∈ l) (hx : Info.check_unit k u e = true) :
    k ∈ l.foldl (Info.mark_unit (some e) incl) acc := by
  induction l generalizing acc with
  | nil => simp at hmem
  | cons kv rest ih =>
    rw [List.mem_cons] at hmem
    rw [List.foldl_cons]
    rcases hmem with heq | hmem
    · subst heq
      obtain ⟨t, ht⟩ :=
        foldl_mark_eq_append (some e) incl rest (Info.mark_unit (some e) incl acc (k, u))
      rw [ht]
      have hk : k ∈ Info.mark_unit (some e) incl acc (k, u) := by
        unfold Info.mark_unit
        cases incl with
        | none => simp [hx]
        | some i =>
          by_cases h2 : Info.check_unit k u i = false <;> simp [hx, h2]
      exact List.mem_append.mpr (Or.inl hk)
    · exact ih _ hmem

theorem except_bind_ok {ε α β : Type} (a : α) (f : α → Except ε β) :
    (Except.ok a >>= f) = f a := rfl

theorem except_bind_error {ε α β : Type} (e : ε) (f : α → Except ε β) :
    ((Except.error e : Except ε α) >>= f) = Except.error e := rfl

theorem dictDel_sublist {α : Type} (d : List (String × α)) (k : String) :
    List.Sublist (dictDel d k) d := by
  induction d with
  | nil => simp [dictDel]
  | cons p rest ih =>
    obtain ⟨k', v⟩ := p
    by_cases h : k' = k
    · simp only [dictDel, if_pos h]
      exact List.sublist_cons_self _ _
    · simp only [dictDel, if_neg h]
      exact List.Sublist.cons₂ _ ih

theorem dictKeys_dictDel_nodup {α : Type} (d : List (String × α)) (k : String)
    (h : (dictKeys d).Nodup) : (dictKeys (dictDel d k)).Nodup :=
  List.Nodup.sublist (List.Sublist.map Prod.fst (dictDel_sublist d k)) h

theorem dictGet_dictDel_absent {α : Type} (d : List (String × α)) (j k : String)
    (h : dictGet d k = none) : dictGet (dictDel d j) k = none := by
  induction d with
  | nil => simp [dictDel, dictGet]
  | cons p rest ih =>
    obtain ⟨k', v⟩ := p
    by_cases hj : k' = j
    · simp only [dictDel, if_pos hj]
      simp only [dictGet] at h
      by_cases hk : k' = k
      · simp [hk] at h
      · simpa [hk] using h
    · simp only [dictDel, if_neg hj]
      simp only [dictGet] at h ⊢
      by_cases hk : k' = k
      · simp [hk] at h
      · simpa [hk] using ih (by simpa [hk] using h)

theorem dictGet_dictDel_self {α : Type} (d : List (String × α)) (k : String)
    (h : (dictKeys d).Nodup) : dictGet (dictDel d k) k = none := by
  induction d with
  | nil => simp [dictDel, dictGet]
  | cons p rest ih =>
    obtain ⟨k', v⟩ := p
    simp only [dictKeys, List.map_cons, List.nodup_cons] at h
    by_cases hk : k' = k
    · simp only [dictDel, if_pos hk]
      subst hk
      exact (dictGet_eq_none_iff rest k').mpr h.1
    · simp only [dictDel, if_neg hk, dictGet, if_neg hk]
      exact ih h.2

theorem foldlM_del_absent {α : Type} (ks : List String)
    (d d' : List (String × α)) (k : String) (h : dictGet d k = none)
    (hok : ks.foldlM del_step d = Except.ok d') : dictGet d' k = none := by
  induction ks generalizing d with
  | nil =>
    rw [List.foldlM_nil] at hok
    exact (Except.ok.inj hok) ▸ h
  | cons j rest ih =>
    rw [List.foldlM_cons] at hok
    unfold del_step at hok
    by_cases hj : (dictGet d j).isSome
    · rw [if_pos hj, except_bind_ok] at hok
      exact ih (dictDel d j) (dictGet_dictDel_absent d j k h) hok
    · rw [if_neg hj, except_bind_error] at hok
      exact absurd hok (by simp)

theorem foldlM_del_mem {α : Type} (ks : List String)
    (d d' : List (String × α)) (k : String)
    (hnd : (dictKeys d).Nodup) (hk : k ∈ ks)
    (hok : ks.foldlM del_step d = Except.ok d') : dictGet d' k = none := by
  induction ks generalizing d with
  | nil => simp at hk
  | cons j rest ih =>
    rw [List.foldlM_cons] at hok
    unfold del_step at hok
    by_cases hj : (dictGet d j).isSome
    · rw [if_pos hj, except_bind_ok] at hok
      rw [List.mem_cons] at hk
      rcases hk with heq | hmem
      · subst heq
        exact foldlM_del_absent rest _ _ k (dictGet_dictDel_self d k hnd) hok
      · exact ih (dictDel d j) (dictKeys_dictDel_nodup d j hnd) hmem hok
    · rw [if_neg hj, except_bind_error] at hok
      exact absurd hok (by simp)

end FilterLemmas

/-- C3 fails as stated: `Info.check_unit` (prometheus) evaluates every
rule with `re.match`, which anchors the pattern at the *start* of the
string.  The claim's own example — pattern `ode0` against entity key
`node01` — is a substring match (`re.search` finds it) yet
`Info.check_unit` does not count it as matching. -/
theorem C3_match_semantics_counterexample :
    reSearch (Regex.lit "ode0") "node01" = true
    ∧ Info.check_unit "node01" [] (.pstr (Regex.lit "ode0")) = false :=
  ⟨rfl, rfl⟩

/-- C3 (amended): the gitlab scraper's `BenchRepo.check_unit` uses
leftmost unanchored substring search (`re.search`: the pattern may
match starting at any position), while the prometheus scraper's
`Info.check_unit` uses `re.match`, which only counts matches anchored
at the start of the string; `ode0` therefore matches entity key
`node01` in the gitlab scraper but not in the prometheus scraper. -/
theorem C3_match_semantics :
    (∀ r name unit, BenchRepo.check_unit name unit (.pstr r) = reSearch r name)
    ∧ (∀ r name unit, Info.check_unit name unit (.pstr r) = reMatch r name)
    ∧ (∀ r s, reSearch r s = true ↔
        ∃ n p, p <+: s.data.drop n ∧ r.fullmatch p = true)
    ∧ (∀ r s, reMatch r s = true ↔ ∃ p, p <+: s.data ∧ r.fullmatch p = true)
    ∧ BenchRepo.check_unit "node01" [] (.pstr (Regex.lit "ode0")) = true := by
  refine ⟨fun r name unit => rfl, fun r name unit => rfl, ?_, ?_, rfl⟩
  · intro r s
    unfold reSearch
    rw [reSearchAux_iff_exists_drop]
    constructor
    · rintro ⟨n, h⟩
      obtain ⟨p, hp, hm⟩ := (matchPrefix_iff _ _).mp h
      exact ⟨n, p, hp, hm⟩
    · rintro ⟨n, p, hp, hm⟩
      exact ⟨n, (matchPrefix_iff _ _).mpr ⟨p, hp, hm⟩⟩
  · intro r s
    exact matchPrefix_iff s.data r

/-- C4 fails on the prometheus code: an entity that matches the exclude
pattern and fails the include pattern is appended to `to_remove` twice,
so the second `del self._dict[unitname]` raises `KeyError`
(`Except.error ()` in this model), while the gitlab variant of the same
function collects `to_remove` in a `set` and succeeds. -/
theorem C4_apply_pattern_keyerror :
    Info.apply_pattern [("node01", ([] : Rec))]
        (some (.pstr (Regex.lit "node0"))) (some (.pstr (Regex.lit "xyz")))
      = Except.error ()
    ∧ BenchRepo.apply_pattern_dict [("node01", ([] : Rec))]
        (some (.pstr (Regex.lit "node0"))) (some (.pstr (Regex.lit "xyz")))
      = Except.ok [] :=
  ⟨rfl, rfl⟩

/-- C5: when both an exclude and an include pattern are configured, an
entity whose key matches the exclude pattern (in particular one that
also matches the include pattern) is removed from the store whenever
`apply_pattern` completes. -/
theorem C5_exclude_wins (store : List (String × Rec)) (e i : Pattern)
    (k : String) (u : Rec) (d : List (String × Rec))
    (hnd : (dictKeys store).Nodup) (hmem : (k, u) ∈ store)
    (hexcl : Info.check_unit k u e = true)
    (hincl : Info.check_unit k u i = true)
    (hok : Info.apply_pattern store (some e) (some i) = Except.ok d) :
    dictGet d k = none := by
  unfold Info.apply_pattern at hok
  exact foldlM_del_mem _ store d k hnd
    (mem_foldl_mark_of_excluded e (some i) store [] k u hmem hexcl) hok

/-- Witness for C5 at the spec's own scenario: entity key `node01`,
exclude `node0.*`, include `node.*` — the entity is removed. -/
theorem C5_exclude_wins_witness :
    dictGet ([] : List (String × Rec)) "node01" = none :=
  C5_exclude_wins [("node01", [])] (.pstr (Regex.litDotStar "node0"))
    (.pstr (Regex.litDotStar "node")) "node01" [] []
    (by decide) (by decide) rfl rfl rfl

/-- Model of Python's `needle in haystack` substring test. -/
def containsSeq (needle : List Char) : List Char → Bool
  | [] => needle.isEmpty
  | c :: cs => needle.isPrefixOf (c :: cs) || containsSeq needle cs

theorem containsSeq_iff (n : List Char) (h : List Char) :
    containsSeq n h = true ↔ n <:+: h := by
  induction h with
  | nil =>
    simp only [containsSeq, List.isEmpty_iff, List.infix_nil]
  | cons c cs ih =>
    simp only [containsSeq, Bool.or_eq_true, List.isPrefixOf_iff_prefix, ih,
      List.infix_cons_iff]

/-- Embedding of the id-width computation of `Info.to_LML`
(prometheus.py line 694): `int(math.log10(len(self._dict)))+1 if
len(self._dict)>0 else 1`.  `int(math.log10 n)` is the floor base-10
logarithm (`Nat.log`); the floating-point evaluation of `math.log10`
is exact for realistic store sizes and is not modelled. -/
def lml_digits (n : Nat) : Nat :=
  if 0 < n then Nat.log 10 n + 1 else 1

/-- Modelled from the spec: the id width C6 asserts,
`ceil(log10(N)) + 1` digits with a minimum of 1 digit. -/
def spec_digits (n : Nat) : Nat :=
  max (Nat.clog 10 n + 1) 1

/-- Model of the format expression `f"{i:0{digits}d}"`: the decimal
representation of `i`, left-padded with zeros to `digits` characters
(never truncated). -/
def padNum (width i : Nat) : String :=
  let s := Nat.repr i
  if s.length < width then
    String.mk (List.replicate (width - s.length) '0' ++ s.data)
  else s

/-- Embedding of the sequence-counter start of `Info.to_LML`
(prometheus.py line 695): `i = 700 if "percore" in filename else 0`. -/
def percore_start (filename : String) : Nat :=
  if containsSeq "percore".data filename.data then 700 else 0

/-- Embedding of the id-assignment loop of `Info.to_LML`
(prometheus.py lines 696-699): each record without `__id` gets
`f'{prefix if prefix else item["__prefix"]}{i:0{digits}d}'` and the
counter advances; records with `__id` are left alone.  A record
without `__id` and without `__prefix`, when the `prefix` argument is
falsy, raises `KeyError` (`Except.error ()`). -/
def assign_ids (pfx : String) (digits : Nat) :
    List (String × Rec) → Nat → Except Unit (List (String × Rec))
  | [], _ => Except.ok []
  | (key, item) :: rest, i =>
    if (dictGet item "__id").isSome then
      (assign_ids pfx digits rest i).map (fun r => (key, item) :: r)
    else
      match (if pfx = "" then dictGet item "__prefix" else some pfx) with
      | none => Except.error ()
      | some p =>
        (assign_ids pfx digits rest (i + 1)).map
          (fun r => (key, dictSet item "__id" (p ++ padNum digits i)) :: r)

/-- The `<objects>` pass of `Info.to_LML` (prometheus.py lines
693-699), as far as it mutates the store: id width from the store
size, counter start from the filename, then the assignment loop. -/
def Info.to_LML_assign (store : List (String × Rec)) (filename pfx : String) :
    Except Unit (List (String × Rec)) :=
  assign_ids pfx (lml_digits store.length) store (percore_start filename)

/-- The store `assign_ids` produces when no record carries `__id` and
a non-empty prefix is configured: the records in order, the j-th one
receiving id `pfx ++ padNum digits (i + j)`. -/
def expected_ids (pfx : String) (digits : Nat) :
    List (String × Rec) → Nat → List (String × Rec)
  | [], _ => []
  | (key, item) :: rest, i =>
    (key, dictSet item "__id" (pfx ++ padNum digits i))
      :: expected_ids pfx digits rest (i + 1)

theorem assign_ids_all_missing (pfx : String) (digits : Nat)
    (l : List (String × Rec)) (i : Nat) (hpfx : pfx ≠ "")
    (hmiss : ∀ kv ∈ l, dictGet kv.2 "__id" = none) :
    assign_ids pfx digits l i = Except.ok (expected_ids pfx digits l i) := by
  induction l generalizing i with
  | nil => rfl
  | cons kv rest ih =>
    obtain ⟨key, item⟩ := kv
    have h1 : dictGet item "__id" = none := hmiss (key, item) (by simp)
    have h2 : ∀ kv ∈ rest, dictGet kv.2 "__id" = none :=
      fun kv hkv => hmiss kv (by simp [hkv])
    simp only [assign_ids, h1, Option.isSome_none, Bool.false_eq_true,
      if_false, if_neg hpfx, ih (i + 1) h2, Except.map, expected_ids]

/-- C6 fails as stated on the width formula: the code pads ids to
`floor(log10 N) + 1` digits, not `ceil(log10 N) + 1`.  For N = 15
entities the numeric part is 2 digits wide (first generated id `p00`),
not the 3 digits the claim asserts. -/
theorem C6_id_width_counterexample :
    lml_digits 15 = 2
    ∧ spec_digits 15 = 3
    ∧ Info.to_LML_assign
        ((List.range 15).map (fun j => (Nat.repr j, ([] : Rec))))
        "out.xml" "p"
      = Except.ok (expected_ids "p" 2
          ((List.range 15).map (fun j => (Nat.repr j, ([] : Rec)))) 0)
    ∧ (expected_ids "p" 2
        ((List.range 15).map (fun j => (Nat.repr j, ([] : Rec)))) 0).head?
      = some ("0", [("__id", "p00")])
    ∧ "p" ++ padNum (spec_digits 15) 0 = "p000"
    ∧ ("p00" : String) ≠ "p000" := by
  have hl : Nat.log 10 15 = 1 :=
    Nat.log_eq_of_pow_le_of_lt_pow (by norm_num) (by norm_num)
  have hlog : lml_digits 15 = 2 := by
    unfold lml_digits
    rw [if_pos (by norm_num), hl]
  have hclog : Nat.clog 10 15 = 2 := by
    have h1 : Nat.clog 10 15 ≤ 2 :=
      (Nat.le_pow_iff_clog_le (by norm_num)).mp (by norm_num)
    have h2 : ¬ (Nat.clog 10 15 ≤ 1) := by
      intro hc
      have := (Nat.le_pow_iff_clog_le (by norm_num : (1 : ℕ) < 10)).mpr hc
      norm_num at this
    omega
  have hspec : spec_digits 15 = 3 := by
    unfold spec_digits
    rw [hclog]
    decide
  refine ⟨hlog, hspec, ?_, by rfl, by rw [hspec]; rfl, by decide⟩
  unfold Info.to_LML_assign
  have hlen : ((List.range 15).map
      (fun j => (Nat.repr j, ([] : Rec)))).length = 15 := by simp
  rw [hlen, hlog]
  exact assign_ids_all_missing "p" 2 _ _ (by decide) (by decide)

/-- C6 (amended): for a store of N > 0 entities none of which has
`__id`, and a configured non-empty prefix, rendering assigns the j-th
record the id `prefix ++ padNum digits (start + j)` with
`digits = floor(log10 N) + 1` — the number of decimal digits of N —
zero-padded to that width. -/
theorem C6_id_width (store : List (String × Rec)) (pfx filename : String)
    (hpfx : pfx ≠ "") (hmiss : ∀ kv ∈ store, dictGet kv.2 "__id" = none) :
    Info.to_LML_assign store filename pfx
      = Except.ok (expected_ids pfx (lml_digits store.length) store
          (percore_start filename))
    ∧ (∀ n : Nat, 0 < n → lml_digits n = Nat.log 10 n + 1
        ∧ 10 ^ (Nat.log 10 n) ≤ n ∧ n < 10 ^ (Nat.log 10 n + 1)) := by
  constructor
  · exact assign_ids_all_missing pfx (lml_digits store.length) store
      (percore_start filename) hpfx hmiss
  · intro n hn
    refine ⟨by unfold lml_digits; rw [if_pos hn], ?_, ?_⟩
    · exact Nat.pow_log_le_self 10 (Nat.pos_iff_ne_zero.mp hn)
    · exact Nat.lt_pow_succ_log_self (by norm_num) n

/-- Witness for C6 (amended) at a one-entity store. -/
theorem C6_id_width_witness :
    Info.to_LML_assign [("a", ([] : Rec))] "f.xml" "p"
      = Except.ok (expected_ids "p" (lml_digits 1) [("a", [])]
          (percore_start "f.xml")) :=
  (C6_id_width [("a", [])] "p" "f.xml" (by decide) (by decide)).1

/-- C9: the sequence counter of `Info.to_LML` starts at 700 exactly
when the output filename contains the substring `percore` and at 0
otherwise; for a one-entity `percore` store with `__prefix` `c` the
generated id is `c700`. -/
theorem C9_percore_start (fname : String) :
    ("percore".data <:+: fname.data → percore_start fname = 700)
    ∧ (¬ ("percore".data <:+: fname.data) → percore_start fname = 0)
    ∧ Info.to_LML_assign [("core0", ([("__prefix", "c")] : Rec))]
        "system_percore.xml" ""
      = Except.ok [("core0", [("__prefix", "c"), ("__id", "c700")])] := by
  refine ⟨?_, ?_, ?_⟩
  · intro h
    unfold percore_start
    rw [if_pos ((containsSeq_iff _ _).mpr h)]
  · intro h
    unfold percore_start
    rw [if_neg (fun hc => h ((containsSeq_iff _ _).mp hc))]
  · unfold Info.to_LML_assign
    have hdig : lml_digits ([("core0",
        ([("__prefix", "c")] : Rec))]).length = 1 := by
      unfold lml_digits
      rw [if_pos (by norm_num), Nat.log_of_lt (by norm_num)]
    have hstart : percore_start "system_percore.xml" = 700 := by
      unfold percore_start
      rw [if_pos (by decide)]
    rw [hdig, hstart]
    rfl

/-- Witness for C9 at concrete filenames on both sides of the
condition. -/
theorem C9_percore_start_witness :
    percore_start "node_percore.xml" = 700 ∧ percore_start "jobs.xml" = 0 :=
  ⟨(C9_percore_start "node_percore.xml").1 (by decide),
   (C9_percore_start "jobs.xml").2.1 (by decide)⟩

/-- Parse a nonempty list of decimal digits into a natural number. -/
def parseDigits (cs : List Char) : Option Nat :=
  if cs.isEmpty then none
  else cs.foldl (fun acc c =>
    acc.bind (fun n =>
      if c.isDigit then some (n * 10 + (c.toNat - '0'.toNat)) else none))
    (some 0)

/-- Model of Python's `float(s)` on the decimal literals the scrapers
feed it (`[+-]? digits [. digits]`); any other string raises
`ValueError`, modelled as `none`.  The result is represented exactly
as a rational — exact for the inputs relevant here (IEEE rounding of
`float` is not modelled). -/
def parse_float (s : String) : Option ℚ :=
  let cs := s.data
  let sg : ℚ := if cs.head? = some '-' then -1 else 1
  let cs2 := if cs.head? = some '-' || cs.head? = some '+' then cs.tail else cs
  let ip := cs2.takeWhile (fun c => c ≠ '.')
  match cs2.dropWhile (fun c => c ≠ '.') with
  | [] => (parseDigits ip).map (fun n => sg * n)
  | _ :: fp =>
    if ip.isEmpty && fp.isEmpty then none
    else if ip.isEmpty then
      (parseDigits fp).map (fun f => sg * (f : ℚ) / (10 : ℚ) ^ fp.length)
    else if fp.isEmpty then
      (parseDigits ip).map (fun n => sg * n)
    else
      match parseDigits ip, parseDigits fp with
      | some n, some f => some (sg * ((n : ℚ) + (f : ℚ) / (10 : ℚ) ^ fp.length))
      | _, _ => none

namespace OutputAggregator

/-- Embedding of `OutputAggregator._get_value_with_default` (files.py
lines 454-455): `record.get(key, self.default_map.get(key))`. -/
def get_value_with_default (default_map : Rec) (record : Rec)
    (key : String) : Option String :=
  match dictGet record key with
  | some v => some v
  | none => dictGet default_map key

/-- The `numeric_values` list collected by the `min`/`max`/`avg`
branch of `OutputAggregator._output_mode_file` (files.py lines
510-529): for each record of the group, the value (with default) is
skipped if `None`, appended if `float(raw_val)` succeeds, and counted
and skipped (`non_numeric_count`, only logged) otherwise. -/
def numeric_values (default_map : Rec) (group_records : List Rec)
    (metric : String) : List ℚ :=
  group_records.foldl (fun acc r =>
    match get_value_with_default default_map r metric with
    | none => acc
    | some raw =>
      match parse_float raw with
      | some x => acc ++ [x]
      | none => acc) []

/-- Embedding of the `avg` aggregation result (files.py lines
531-541): `""` (here `none`) when no numeric values were found, else
`sum(numeric_values) / len(numeric_values)`. -/
def aggregate_avg (default_map : Rec) (group_records : List Rec)
    (metric : String) : Option ℚ :=
  let vals := numeric_values default_map group_records metric
  if vals.isEmpty then none
  else some (vals.sum / vals.length)

end OutputAggregator

theorem numeric_values_eq_filterMap (default_map : Rec) (metric : String)
    (l : List Rec) :
    OutputAggregator.numeric_values default_map l metric
      = l.filterMap (fun r =>
          (OutputAggregator.get_value_with_default default_map r metric).bind
            parse_float) := by
  have key : ∀ (acc : List ℚ),
      l.foldl (fun acc r =>
        match OutputAggregator.get_value_with_default default_map r metric with
        | none => acc
        | some raw =>
          match parse_float raw with
          | some x => acc ++ [x]
          | none => acc) acc
      = acc ++ l.filterMap (fun r =>
          (OutputAggregator.get_value_with_default default_map r metric).bind
            parse_float) := by
    induction l with
    | nil => simp
    | cons r rest ih =>
      intro acc
      rw [List.foldl_cons, List.filterMap_cons]
      cases hg : OutputAggregator.get_value_with_default default_map r metric with
      | none => simp only [Option.bind, hg, ih, List.append_nil]
      | some raw =>
        cases hp : parse_float raw with
        | none => simp only [Option.bind, hg, hp, ih, List.append_nil]
        | some x =>
          simp only [Option.bind, hg, hp, ih, List.append_assoc,
            List.singleton_append]
  simpa using key []

/-- C7: in file-mode aggregation, `aggregate: avg` over a group
returns the arithmetic mean of the values coercible to float —
non-numeric values are skipped and not counted — and the spec's
scenario `{"v":"10"}, {"v":"20"}, {"v":"x"}` yields 15. -/
theorem C7_avg_skips_non_numeric (default_map : Rec) (metric : String)
    (group : List Rec)
    (hne : group.filterMap (fun r =>
        (OutputAggregator.get_value_with_default default_map r metric).bind
          parse_float) ≠ []) :
    OutputAggregator.aggregate_avg default_map group metric
      = some ((group.filterMap (fun r =>
          (OutputAggregator.get_value_with_default default_map r metric).bind
            parse_float)).sum
        / (group.filterMap (fun r =>
          (OutputAggregator.get_value_with_default default_map r metric).bind
            parse_float)).length)
    ∧ OutputAggregator.aggregate_avg []
        [[("idx", "A"), ("v", "10")], [("idx", "A"), ("v", "20")],
         [("idx", "A"), ("v", "x")]] "v"
      = some 15 := by
  constructor
  · unfold OutputAggregator.aggregate_avg
    rw [numeric_values_eq_filterMap]
    rw [if_neg (by simpa [List.isEmpty_iff] using hne)]
  · simp [OutputAggregator.aggregate_avg, OutputAggregator.numeric_values,
      OutputAggregator.get_value_with_default, parse_float, parseDigits,
      dictGet]
    norm_num

/-- Witness for C7 at the spec's scenario group. -/
theorem C7_avg_skips_non_numeric_witness :
    OutputAggregator.aggregate_avg []
        [[("idx", "A"), ("v", "10")], [("idx", "A"), ("v", "20")],
         [("idx", "A"), ("v", "x")]] "v"
      = some 15 :=
  (C7_avg_skips_non_numeric [] "v"
    [[("idx", "A"), ("v", "10")], [("idx", "A"), ("v", "20")],
     [("idx", "A"), ("v", "x")]] (by decide)).2

namespace Info

/-- The prometheus transform registry: `Info.modify` looks transform
functions up by name in `globals()`; modelled as an explicit
name → function table of string transforms. -/
abbrev Registry := List (String × (String → String))

/-- A value of the `modify` configuration dict: a comma-separated
string of function names, or a list of names. -/
inductive ModVal where
  | mstr : String → ModVal
  | mlist : List String → ModVal

/-- The function names a `ModVal` denotes (prometheus.py lines
658-659, 665): a string is split on `,` with each part stripped; a
list is used as is. -/
def funcnames : ModVal → List String
  | .mstr v => (v.splitOn ",").map (fun s => s.trim)
  | .mlist vs => vs

/-- One step of the transform loop of `Info.modify` (prometheus.py
lines 660-664): `func = globals()[funcname]; item[key] = func(item[key])`,
with the `KeyError` of an undefined name caught — the value is kept
and processing continues. -/
def apply_one (g : Registry) (key : String) (it : Rec) (fn : String) : Rec :=
  match dictGet g fn with
  | some f =>
    match dictGet it key with
    | some cur => dictSet it key (f cur)
    | none => it
  | none => it

/-- Embedding of the per-record body of `Info.modify` (prometheus.py
lines 652-671): a key absent from the record is skipped (only
logged); otherwise the named functions are applied in order. -/
def modify_item (g : Registry) (modify_dict : List (String × ModVal))
    (item : Rec) : Rec :=
  modify_dict.foldl (fun it kv =>
    match dictGet it kv.1 with
    | none => it
    | some _ => (funcnames kv.2).foldl (apply_one g kv.1) it) item

/-- Embedding of `Info.modify` (prometheus.py lines 647-674): every
record of the store is rewritten by `modify_item`. -/
def modify (g : Registry) (modify_dict : List (String × ModVal))
    (store : List (String × Rec)) : List (String × Rec) :=
  store.map (fun kv => (kv.1, modify_item g modify_dict kv.2))

theorem foldl_apply_one_unknown (g : Registry) (key : String)
    (names : List String) (it : Rec)
    (h : ∀ fn ∈ names, dictGet g fn = none) :
    names.foldl (apply_one g key) it = it := by
  induction names generalizing it with
  | nil => rfl
  | cons fn rest ih =>
    rw [List.foldl_cons]
    have h1 : apply_one g key it fn = it := by
      unfold apply_one
      rw [h fn (by simp)]
    rw [h1]
    exact ih it (fun f hf => h f (by simp [hf]))

theorem modify_item_all_unknown (g : Registry)
    (md : List (String × ModVal)) (item : Rec)
    (h : ∀ kv ∈ md, ∀ fn ∈ funcnames kv.2, dictGet g fn = none) :
    modify_item g md item = item := by
  unfold modify_item
  induction md generalizing item with
  | nil => rfl
  | cons kv rest ih =>
    rw [List.foldl_cons]
    have h1 : (match dictGet item kv.1 with
        | none => item
        | some _ => (funcnames kv.2).foldl (apply_one g kv.1) item) = item := by
      cases dictGet item kv.1 with
      | none => rfl
      | some v =>
        exact foldl_apply_one_unknown g kv.1 _ item (h kv (by simp))
    rw [h1]
    exact ih item (fun kv2 hkv2 => h kv2 (by simp [hkv2]))

end Info

namespace FileParser

/-- One compiled metric definition as the transformation loop of
`OutputAggregator`'s `FileParser.process_transformed_records` consumes
it: the metric keys it names (its `name`, or its regex group names)
and its `apply` map from metric key to transform-function name. -/
structure MDef where
  keys : List String
  apply : List (String × String)

/-- The files transform registry: a function may fail (an exception,
or `to_timestamp` returning `None` from a non-`None` input), which
drops the record — modelled as an `Option` result. -/
abbrev Registry := List (String × (String → Option String))

/-- Embedding of the transformation loop of
`FileParser.process_transformed_records` (files.py lines 354-387) on
one record: `none` when the record is dropped — by an unknown or
uncallable transform name (lines 382-385) or by a failing transform —
otherwise the transformed record.  A key absent from the record, or
with no transform configured (a missing or falsy `apply` entry), is
skipped. -/
def process_record (g : Registry) (mdefs : List MDef) (r : Rec) :
    Option Rec :=
  mdefs.foldl (fun st md =>
    match st with
    | none => none
    | some cur =>
      md.keys.foldl (fun st2 mk =>
        match st2 with
        | none => none
        | some cur2 =>
          match dictGet cur2 mk with
          | none => some cur2
          | some orig =>
            match dictGet md.apply mk with
            | none => some cur2
            | some fname =>
              if fname = "" then some cur2
              else
                match dictGet g fname with
                | none => none
                | some f =>
                  match f orig with
                  | some newv => some (dictSet cur2 mk newv)
                  | none => none) (some cur)) (some r)

/-- Embedding of `FileParser.process_transformed_records` (files.py
lines 345-387), transformation phase: the surviving records in
order, dropped ones omitted. -/
def process_transformed_records (g : Registry) (mdefs : List MDef)
    (raw_records : List Rec) : List Rec :=
  raw_records.foldl (fun acc r =>
    match process_record g mdefs r with
    | some r2 => acc ++ [r2]
    | none => acc) []

end FileParser

/-- C8 fails as stated for the files scraper: an unknown transform
name makes `process_transformed_records` drop the whole record, while
the claim says the record is never removed.  The prometheus `modify`
behaves as claimed on the same configuration. -/
theorem C8_unknown_transform_counterexample :
    FileParser.process_transformed_records []
        [⟨["v"], [("v", "to_mib")]⟩] [[("v", "1")]] = []
    ∧ Info.modify [] [("v", Info.ModVal.mlist ["to_mib"])]
        [("r1", [("v", "1")])]
      = [("r1", [("v", "1")])] :=
  ⟨rfl, rfl⟩

/-- C8 (amended): an unknown transform name is non-fatal in both
scrapers, but they differ.  In prometheus's `Info.modify` the field
keeps its value, the record stays, and later transforms still apply
(`nosuch` is skipped, `up` still fires).  In the files scraper's
`process_transformed_records` the affected *record is dropped* and
processing continues with the remaining records. -/
theorem C8_unknown_transform (g : Info.Registry)
    (md : List (String × Info.ModVal)) (item : Rec)
    (h : ∀ kv ∈ md, ∀ fn ∈ Info.funcnames kv.2, dictGet g fn = none) :
    Info.modify_item g md item = item
    ∧ Info.modify_item [("up", fun s => s ++ "!")]
        [("v", Info.ModVal.mlist ["nosuch", "up"])] [("v", "a")]
      = [("v", "a!")]
    ∧ FileParser.process_transformed_records []
        [⟨["v"], [("v", "f")]⟩] [[("v", "1")], [("w", "2")]]
      = [[("w", "2")]] :=
  ⟨Info.modify_item_all_unknown g md item h, rfl, rfl⟩

/-- Witness for C8 (amended) at a concrete registry and record: the
only configured transform name is undefined, the record is returned
unchanged by prometheus's `modify_item`. -/
theorem C8_unknown_transform_witness :
    Info.modify_item [] [("v", Info.ModVal.mlist ["nosuch"])] [("v", "a")]
      = [("v", "a")] :=
  (C8_unknown_transform [] [("v", Info.ModVal.mlist ["nosuch"])]
    [("v", "a")] (by simp [Info.funcnames, dictGet])).1

section PathLemmas

theorem dictSet_same {α : Type} (d : List (String × α)) (k : String) (v : α)
    (h : dictGet d k = some v) : dictSet d k v = d := by
  induction d with
  | nil => simp [dictGet] at h
  | cons p rest ih =>
    obtain ⟨k', w⟩ := p
    by_cases hk : k' = k
    · subst hk
      simp [dictGet] at h
      subst h
      simp [dictSet]
    · simp only [dictGet, if_neg hk] at h
      simp [dictSet, hk, ih h]

theorem dictSet_dictSet {α : Type} (d : List (String × α)) (k : String)
    (v w : α) : dictSet (dictSet d k v) k w = dictSet d k w := by
  induction d with
  | nil => simp [dictSet]
  | cons p rest ih =>
    obtain ⟨k', u⟩ := p
    by_cases hk : k' = k
    · simp [dictSet, hk]
    · simp [dictSet, hk, ih]

theorem dictSet_isEmpty {α : Type} (d : List (String × α)) (k : String)
    (v : α) : (dictSet d k v).isEmpty = false := by
  cases d with
  | nil => simp [dictSet]
  | cons p rest =>
    obtain ⟨k', w⟩ := p
    by_cases hk : k' = k <;> simp [dictSet, hk]

theorem putPath_getPath_id (path : List String) (root cur : PyDict)
    (h : getPath root path = some cur) : putPath root path cur = root := by
  induction path generalizing root with
  | nil =>
    simp only [getPath, Option.some.injEq] at h
    simp [putPath, h]
  | cons p ps ih =>
    simp only [getPath] at h
    cases hg : dictGet root p with
    | none => rw [hg] at h; simp at h
    | some v =>
      cases v with
      | vDict sub =>
        rw [hg] at h
        simp only [putPath, hg, ih sub h]
        exact dictSet_same root p _ hg
      | vNone => rw [hg] at h; simp at h
      | vStr s => rw [hg] at h; simp at h
      | vInt n => rw [hg] at h; simp at h

theorem getPath_putPath (path : List String) (root cur new : PyDict)
    (h : getPath root path = some cur) :
    getPath (putPath root path new) path = some new := by
  induction path generalizing root with
  | nil => simp [getPath, putPath]
  | cons p ps ih =>
    simp only [getPath] at h
    cases hg : dictGet root p with
    | none => rw [hg] at h; simp at h
    | some v =>
      cases v with
      | vDict sub =>
        rw [hg] at h
        simp only [putPath, hg, getPath, dictGet_dictSet_self, ih sub h]
      | vNone => rw [hg] at h; simp at h
      | vStr s => rw [hg] at h; simp at h
      | vInt n => rw [hg] at h; simp at h

theorem putPath_putPath (path : List String) (root cur new new2 : PyDict)
    (h : getPath root path = some cur) :
    putPath (putPath root path new) path new2 = putPath root path new2 := by
  induction path generalizing root with
  | nil => simp [putPath]
  | cons p ps ih =>
    simp only [getPath] at h
    cases hg : dictGet root p with
    | none => rw [hg] at h; simp at h
    | some v =>
      cases v with
      | vDict sub =>
        rw [hg] at h
        simp only [putPath, hg, dictGet_dictSet_self, ih sub h,
          dictSet_dictSet]
      | vNone => rw [hg] at h; simp at h
      | vStr s => rw [hg] at h; simp at h
      | vInt n => rw [hg] at h; simp at h

theorem getPath_append (path : List String) (root cur a : PyDict)
    (bk : String) (h : getPath root path = some cur)
    (ha : dictGet cur bk = some (.vDict a)) :
    getPath root (path ++ [bk]) = some a := by
  induction path generalizing root with
  | nil =>
    simp only [getPath, Option.some.injEq] at h
    subst h
    simp [getPath, ha]
  | cons p ps ih =>
    simp only [getPath] at h
    cases hg : dictGet root p with
    | none => rw [hg] at h; simp at h
    | some v =>
      cases v with
      | vDict sub =>
        rw [hg] at h
        rw [List.cons_append]
        simp only [getPath, hg]
        exact ih sub h
      | vNone => rw [hg] at h; simp at h
      | vStr s => rw [hg] at h; simp at h
      | vInt n => rw [hg] at h; simp at h

theorem putPath_append (path : List String) (root cur a new : PyDict)
    (bk : String) (h : getPath root path = some cur)
    (ha : dictGet cur bk = some (.vDict a)) :
    putPath root (path ++ [bk]) new
      = putPath root path (dictSet cur bk (.vDict new)) := by
  induction path generalizing root with
  | nil =>
    simp only [getPath, Option.some.injEq] at h
    subst h
    simp [putPath, ha]
  | cons p ps ih =>
    simp only [getPath] at h
    cases hg : dictGet root p with
    | none => rw [hg] at h; simp at h
    | some v =>
      cases v with
      | vDict sub =>
        rw [hg] at h
        rw [List.cons_append]
        simp only [putPath, hg]
        rw [ih sub h]
      | vNone => rw [hg] at h; simp at h
      | vStr s => rw [hg] at h; simp at h
      | vInt n => rw [hg] at h; simp at h

theorem setPath_eq_putPath (path : List String) (root cur : PyDict)
    (bk : String) (v : PyVal) (h : getPath root path = some cur) :
    setPath root path bk v = putPath root path (dictSet cur bk v) := by
  induction path generalizing root with
  | nil =>
    simp only [getPath, Option.some.injEq] at h
    simp [setPath, putPath, h]
  | cons p ps ih =>
    simp only [getPath] at h
    cases hg : dictGet root p with
    | none => rw [hg] at h; simp at h
    | some w =>
      cases w with
      | vDict sub =>
        rw [hg] at h
        simp only [setPath, putPath, hg, ih sub h]
      | vNone => rw [hg] at h; simp at h
      | vStr s => rw [hg] at h; simp at h
      | vInt n => rw [hg] at h; simp at h

end PathLemmas

mutual

/-- No value inside this Python value is an *empty* dict (an empty
dict is falsy, which triggers the `if not add_to:` redirect inside
`Info.add`). -/
def noEmptyVal : PyVal → Bool
  | .vNone => true
  | .vStr _ => true
  | .vInt _ => true
  | .vDict d => !d.isEmpty && noEmptyEntries d
termination_by v => sizeOf v

/-- Every value bound in this dict satisfies `noEmptyVal` (the dict
itself may be empty: only *values* are ever tested for falsiness). -/
def noEmptyEntries : PyDict → Bool
  | [] => true
  | (_, v) :: rest => noEmptyVal v && noEmptyEntries rest
termination_by d => sizeOf d

end

section NoEmptyLemmas

theorem noEmptyEntries_dictGet (d : PyDict) (k : String) (v : PyVal)
    (hd : noEmptyEntries d = true) (h : dictGet d k = some v) :
    noEmptyVal v = true := by
  induction d with
  | nil => simp [dictGet] at h
  | cons p rest ih =>
    obtain ⟨k', w⟩ := p
    rw [noEmptyEntries, Bool.and_eq_true] at hd
    by_cases hk : k' = k
    · simp only [dictGet, if_pos hk, Option.some.injEq] at h
      subst h
      exact hd.1
    · simp only [dictGet, if_neg hk] at h
      exact ih hd.2 h

theorem noEmptyEntries_dictSet (d : PyDict) (k : String) (v : PyVal)
    (hd : noEmptyEntries d = true) (hv : noEmptyVal v = true) :
    noEmptyEntries (dictSet d k v) = true := by
  induction d with
  | nil => simp [dictSet, noEmptyEntries, hv]
  | cons p rest ih =>
    obtain ⟨k', w⟩ := p
    rw [noEmptyEntries, Bool.and_eq_true] at hd
    by_cases hk : k' = k
    · simp only [dictSet, if_pos hk]
      rw [noEmptyEntries, Bool.and_eq_true]
      exact ⟨hv, hd.2⟩
    · simp only [dictSet, if_neg hk]
      rw [noEmptyEntries, Bool.and_eq_true]
      exact ⟨hd.1, ih hd.2⟩

theorem noEmptyEntries_getPath (path : List String) (root cur : PyDict)
    (hr : noEmptyEntries root = true) (h : getPath root path = some cur) :
    noEmptyEntries cur = true := by
  induction path generalizing root with
  | nil =>
    simp only [getPath, Option.some.injEq] at h
    subst h
    exact hr
  | cons p ps ih =>
    simp only [getPath] at h
    cases hg : dictGet root p with
    | none => rw [hg] at h; simp at h
    | some v =>
      cases v with
      | vDict sub =>
        rw [hg] at h
        have hv := noEmptyEntries_dictGet root p _ hr hg
        rw [noEmptyVal, Bool.and_eq_true] at hv
        exact ih sub hv.2 h
      | vNone => rw [hg] at h; simp at h
      | vStr s => rw [hg] at h; simp at h
      | vInt n => rw [hg] at h; simp at h

theorem noEmptyEntries_putPath (path : List String) (root cur new : PyDict)
    (hr : noEmptyEntries root = true) (h : getPath root path = some cur)
    (hnew : noEmptyEntries new = true) (hne : new.isEmpty = false) :
    noEmptyEntries (putPath root path new) = true := by
  induction path generalizing root with
  | nil => simpa [putPath] using hnew
  | cons p ps ih =>
    simp only [getPath] at h
    cases hg : dictGet root p with
    | none => rw [hg] at h; simp at h
    | some v =>
      cases v with
      | vDict sub =>
        rw [hg] at h
        have hv := noEmptyEntries_dictGet root p _ hr hg
        rw [noEmptyVal, Bool.and_eq_true] at hv
        simp only [putPath, hg]
        refine noEmptyEntries_dictSet root p _ hr ?_
        rw [noEmptyVal, Bool.and_eq_true]
        constructor
        · cases ps with
          | nil => simpa [putPath] using hne
          | cons q qs =>
            simp only [putPath]
            cases hq : dictGet sub q with
            | none => simpa using hv.1
            | some w =>
              cases w with
              | vDict sub2 => simp [dictSet_isEmpty]
              | vNone => simpa using hv.1
              | vStr s => simpa using hv.1
              | vInt n => simpa using hv.1
        · exact ih sub hv.2 h
      | vNone => rw [hg] at h; simp at h
      | vStr s => rw [hg] at h; simp at h
      | vInt n => rw [hg] at h; simp at h

theorem specMerge_isEmpty (b : PyDict) (a : PyDict)
    (ha : a.isEmpty = false) : (specMerge a b).isEmpty = false := by
  induction b generalizing a with
  | nil => simpa [specMerge] using ha
  | cons p rest ih =>
    obtain ⟨bk, bv⟩ := p
    rw [specMerge]
    exact ih _ (dictSet_isEmpty a bk _)

end NoEmptyLemmas

mutual

theorem specMerge_noEmpty (b : PyDict) : ∀ a : PyDict,
    noEmptyEntries a = true → noEmptyEntries b = true →
    noEmptyEntries (specMerge a b) = true := by
  intro a ha hb
  match b with
  | [] => rw [specMerge]; exact ha
  | (bk, bv) :: rest =>
    rw [noEmptyEntries, Bool.and_eq_true] at hb
    rw [specMerge]
    refine specMerge_noEmpty rest _ ?_ hb.2
    refine noEmptyEntries_dictSet a bk _ ha ?_
    exact specMergeOpt_noEmpty bv (dictGet a bk)
      (fun v hv => noEmptyEntries_dictGet a bk v ha hv) hb.1
termination_by sizeOf b

theorem specMergeVal_noEmpty (bv : PyVal) : ∀ av : PyVal,
    noEmptyVal av = true → noEmptyVal bv = true →
    noEmptyVal (specMergeVal av bv) = true := by
  intro av hav hbv
  match av, bv with
  | .vDict a, .vDict b =>
    rw [noEmptyVal, Bool.and_eq_true] at hav hbv
    rw [specMergeVal, noEmptyVal, Bool.and_eq_true]
    constructor
    · have ha1 : a.isEmpty = false := by simpa using hav.1
      simp only [Bool.not_eq_true']
      exact specMerge_isEmpty b a ha1
    · exact specMerge_noEmpty b a hav.2 hbv.2
  | .vDict a, .vNone => simpa [specMergeVal] using hbv
  | .vDict a, .vStr s => simpa [specMergeVal] using hbv
  | .vDict a, .vInt n => simpa [specMergeVal] using hbv
  | .vNone, bv => simpa [specMergeVal] using hbv
  | .vStr s, bv => simpa [specMergeVal] using hbv
  | .vInt n, bv => simpa [specMergeVal] using hbv
termination_by sizeOf bv

theorem specMergeOpt_noEmpty (bv : PyVal) :
    ∀ o : Option PyVal,
    (∀ v, o = some v → noEmptyVal v = true) → noEmptyVal bv = true →
    noEmptyVal (specMergeOpt o bv) = true := by
  intro o ho hbv
  match o with
  | some av =>
    rw [specMergeOpt]
    exact specMergeVal_noEmpty bv av (ho av rfl) hbv
  | none => rw [specMergeOpt]; exact hbv
termination_by sizeOf bv + 1

end

theorem specMergeOpt_not_dict (o : Option PyVal) (bv : PyVal)
    (h : bv.isDict = false) : specMergeOpt o bv = bv := by
  match o with
  | none => rw [specMergeOpt]
  | some av =>
    rw [specMergeOpt]
    cases av <;> cases bv <;>
      simp [PyVal.isDict] at h ⊢ <;> simp [specMergeVal]

mutual

theorem add_eq_specMerge (to_add : PyDict) : ∀ (root : PyDict)
    (path : List String) (cur : PyDict),
    getPath root path = some cur → noEmptyEntries root = true →
    noEmptyEntries to_add = true →
    Info.add root path to_add = putPath root path (specMerge cur to_add) := by
  intro root path cur h hr hta
  match to_add with
  | [] => rw [Info.add, specMerge, putPath_getPath_id path root cur h]
  | (bk, bv) :: rest =>
    rw [noEmptyEntries, Bool.and_eq_true] at hta
    have hcur : noEmptyEntries cur = true := noEmptyEntries_getPath path root cur hr h
    have hstep : Info.addStep root path bk bv
        = putPath root path (dictSet cur bk (specMergeOpt (dictGet cur bk) bv)) :=
      addStep_eq bv root path cur bk h hr hta.1
    have hne2 : noEmptyEntries (dictSet cur bk (specMergeOpt (dictGet cur bk) bv)) = true := by
      refine noEmptyEntries_dictSet cur bk _ hcur ?_
      exact specMergeOpt_noEmpty bv (dictGet cur bk)
        (fun v hv => noEmptyEntries_dictGet cur bk v hcur hv) hta.1
    have h2 : getPath (putPath root path (dictSet cur bk (specMergeOpt (dictGet cur bk) bv))) path
        = some (dictSet cur bk (specMergeOpt (dictGet cur bk) bv)) :=
      getPath_putPath path root cur _ h
    have hr2 : noEmptyEntries (putPath root path (dictSet cur bk (specMergeOpt (dictGet cur bk) bv))) = true :=
      noEmptyEntries_putPath path root cur _ hr h hne2 (dictSet_isEmpty cur bk _)
    have hrec := add_eq_specMerge rest
      (putPath root path (dictSet cur bk (specMergeOpt (dictGet cur bk) bv)))
      path (dictSet cur bk (specMergeOpt (dictGet cur bk) bv)) h2 hr2 hta.2
    rw [Info.add, hstep, hrec, putPath_putPath path root cur _ _ h, specMerge]
termination_by sizeOf to_add

theorem setIfLive_eq (path : List String) (root cur : PyDict)
    (bk : String) (v : PyVal) (h : getPath root path = some cur) :
    Info.setIfLive root path bk v = putPath root path (dictSet cur bk v) := by
  simp only [Info.setIfLive, h]
  exact setPath_eq_putPath path root cur bk v h

theorem addStep_eq (bv : PyVal) : ∀ (root : PyDict) (path : List String)
    (cur : PyDict) (bk : String),
    getPath root path = some cur → noEmptyEntries root = true →
    noEmptyVal bv = true →
    Info.addStep root path bk bv
      = putPath root path (dictSet cur bk (specMergeOpt (dictGet cur bk) bv)) := by
  intro root path cur bk h hr hbv
  match bv with
  | .vDict b =>
    rw [noEmptyVal, Bool.and_eq_true] at hbv
    simp only [Info.addStep, h]
    cases hg : dictGet cur bk with
    | some av =>
      cases av with
      | vDict a =>
        have hav := noEmptyEntries_dictGet cur bk _
          (noEmptyEntries_getPath path root cur hr h) hg
        rw [noEmptyVal, Bool.and_eq_true] at hav
        have ha1 : a.isEmpty = false := by simpa using hav.1
        dsimp only
        rw [if_neg (by simp [ha1])]
        have hsub : getPath root (path ++ [bk]) = some a :=
          getPath_append path root cur a bk h hg
        rw [add_eq_specMerge b root (path ++ [bk]) a hsub hr hbv.2,
          putPath_append path root cur a _ bk h hg]
        simp only [specMergeOpt, specMergeVal]
      | vNone =>
        dsimp only
        rw [setIfLive_eq path root cur bk _ h]
        simp [specMergeOpt, specMergeVal]
      | vStr s =>
        dsimp only
        rw [setIfLive_eq path root cur bk _ h]
        simp [specMergeOpt, specMergeVal]
      | vInt n =>
        dsimp only
        rw [setIfLive_eq path root cur bk _ h]
        simp [specMergeOpt, specMergeVal]
    | none =>
      dsimp only
      rw [setIfLive_eq path root cur bk _ h]
      simp [specMergeOpt]
  | .vNone =>
    rw [Info.addStep, setIfLive_eq path root cur bk _ h,
      specMergeOpt_not_dict _ _ (by rfl)]
  | .vStr s =>
    rw [Info.addStep, setIfLive_eq path root cur bk _ h,
      specMergeOpt_not_dict _ _ (by rfl)]
  | .vInt n =>
    rw [Info.addStep, setIfLive_eq path root cur bk _ h,
      specMergeOpt_not_dict _ _ (by rfl)]
termination_by sizeOf bv

end

/-- C1 fails as stated: when the existing value at a key is an *empty*
dict, the recursive call `self.add(bv, add_to=av)` hits the falsy
check `if not add_to:` and is redirected to the top-level
`self._dict`, so the incoming mapping's fields are merged into the top
level of the store while the empty dict stays at the key.  For
`A = {"n1": {}}` and `B = {"n1": {"a": "1"}}` the code yields
`{"n1": {}, "a": "1"}`, not the recursive merge `{"n1": {"a": "1"}}`
the claim asserts. -/
theorem C1_merge_counterexample :
    Info.add [("n1", PyVal.vDict [])] []
        [("n1", PyVal.vDict [("a", PyVal.vStr "1")])]
      = [("n1", PyVal.vDict []), ("a", PyVal.vStr "1")]
    ∧ specMerge [("n1", PyVal.vDict [])]
        [("n1", PyVal.vDict [("a", PyVal.vStr "1")])]
      = [("n1", PyVal.vDict [("a", PyVal.vStr "1")])]
    ∧ PyVal.vDict ([] : PyDict) ≠ PyVal.vDict [("a", PyVal.vStr "1")] := by
  refine ⟨?_, ?_, by simp⟩
  · simp [Info.add, Info.addStep, Info.setIfLive, getPath, setPath,
      dictGet, dictSet, List.isEmpty]
  · simp [specMerge, specMergeOpt, specMergeVal, dictGet, dictSet]

/-- C1 (amended): provided no mapping *value* on either side is empty
(an empty dict is falsy and triggers the redirect exhibited in the
counterexample), merging store B into store A (`Info.__add__` /
`Info.add`) agrees with the spec's recursive merge: (i) the code's
`add` equals `specMerge`, (ii) `__add__` applies it to the rendered
dicts, (iii) an entity (or, one level down, a field) present only in A
is unchanged, (iv) one present only in B is taken from B, (v) a key
present in both is resolved by `specMergeVal`, which (vi) merges
recursively when both values are mappings and (vii) takes B's value
when at least one side is not a mapping (last write wins). -/
theorem C1_merge_semantics (A B : PyDict)
    (hA : noEmptyEntries A = true) (hB : noEmptyEntries B = true)
    (hnd : (dictKeys B).Nodup) :
    Info.add A [] B = specMerge A B
    ∧ (∀ s t : Info.Store, (Info.hAdd s t).dict = Info.add s.dict [] t.dict)
    ∧ (∀ k, dictGet B k = none → dictGet (specMerge A B) k = dictGet A k)
    ∧ (∀ k bv, dictGet A k = none → dictGet B k = some bv →
        dictGet (specMerge A B) k = some bv)
    ∧ (∀ k av bv, dictGet A k = some av → dictGet B k = some bv →
        dictGet (specMerge A B) k = some (specMergeVal av bv))
    ∧ (∀ a b, specMergeVal (.vDict a) (.vDict b) = .vDict (specMerge a b))
    ∧ (∀ av bv, av.isDict = false ∨ bv.isDict = false →
        specMergeVal av bv = bv) := by
  refine ⟨?_, fun s t => rfl, ?_, ?_, ?_,
    fun a b => by simp [specMergeVal], ?_⟩
  · have h := add_eq_specMerge B A [] A rfl hA hB
    simpa [putPath] using h
  · intro k hk
    exact specMerge_get_of_not_mem B A k ((dictGet_eq_none_iff B k).mp hk)
  · intro k bv hA2 hBk
    exact specMerge_get_right B A k bv hnd hA2 hBk
  · intro k av bv hA2 hBk
    exact specMerge_get_both B A k av bv hnd hA2 hBk
  · intro av bv h
    cases av <;> cases bv <;> simp [PyVal.isDict] at h ⊢ <;>
      simp [specMergeVal]

/-- Witness for C1 (amended) at a concrete pair of stores with no
empty mapping values: the code's merge equals the spec's recursive
merge. -/
theorem C1_merge_semantics_witness :
    Info.add [("n1", PyVal.vDict [("a", PyVal.vStr "1")])] []
        [("n1", PyVal.vDict [("b", PyVal.vStr "2")]), ("n2", PyVal.vInt 3)]
      = specMerge [("n1", PyVal.vDict [("a", PyVal.vStr "1")])]
          [("n1", PyVal.vDict [("b", PyVal.vStr "2")]), ("n2", PyVal.vInt 3)] :=
  (C1_merge_semantics _ _
    (by simp [noEmptyEntries, noEmptyVal, List.isEmpty])
    (by simp [noEmptyEntries, noEmptyVal, List.isEmpty])
    (by decide)).1
